import Mathlib

/-!
Verification development for the semantic-cache subsystem of q-cli.

The definitions below are a shallow embedding of the cache engine
(`src/cache.ts`, bundled in `src/src/index.ts` — the current revision is the
second copy, whose caller in `src/unnamed/part_003` wraps `lookupCache` in
try/catch), the embedding codec (`src/embeddings.ts`, `src/unnamed/part_002`)
and the retry wrapper (`src/retry.ts`).

Modelling choices:
* Machine numbers (`number`, the decoded `Float32Array` values) are modelled
  as rationals `ℚ`; `Math.sqrt` — an external library function — is passed as
  an explicit function parameter, so every theorem about the lookup policy
  holds for an arbitrary square-root routine.
* The SHA-256 digest from `node:crypto` is likewise an explicit parameter
  `digest : String → String`.
* A `Float32Array` element is, for the byte codec, identified with its 32-bit
  pattern (a `Nat < 2^32`); `Buffer` is a list of bytes.  `Buffer.from` /
  `new Float32Array(buffer, ...)` reinterpret the same little-endian bytes.
* Errors thrown by the TypeScript code are `Except.error` values carrying the
  thrown message; the SQLite table is a `List CacheEntry`, `new Date()` is an
  explicit `now : Int` (epoch milliseconds).
-/

/-- One row of the `cache_entries` table (`src/db/schema.ts`,
migration `0000`), with the embedding blob already decoded to its vector. -/
structure CacheEntry where
  id : Nat
  query : String
  query_embedding : List ℚ
  context_hash : Option String
  response : String
  response_id : Option Nat
  created_at : Int
  expires_at : Int
  hit_count : Nat
deriving DecidableEq, Repr

/-- Result of a cache lookup: the matched entry plus its similarity score
(interface `CacheMatch` in cache.ts). -/
structure CacheMatch where
  entry : CacheEntry
  similarity : ℚ
deriving DecidableEq, Repr

/-! ## Embedding codec (`src/embeddings.ts`) -/

/-- Little-endian byte serialization of one 32-bit word: the layout of one
`Float32Array` element inside its backing `ArrayBuffer`. -/
def word32ToBytesLE (w : Nat) : List Nat :=
  [w % 256, w / 256 % 256, w / 65536 % 256, w / 16777216 % 256]

/-- Source `embeddingToBuffer`: `Buffer.from(embedding.buffer)` exposes the
raw little-endian bytes of the vector's elements. -/
def embeddingToBuffer (v : List Nat) : List Nat :=
  (v.map word32ToBytesLE).flatten

/-- Source `bufferToEmbedding`: `new Float32Array(buffer.buffer,
buffer.byteOffset, buffer.byteLength / 4)` regroups the bytes, four at a
time, into 32-bit elements.  (On a byte length that is not a multiple of 4
the constructor raises a RangeError; such buffers are outside every claim and
the model simply stops at the ragged tail.) -/
def bufferToEmbedding : List Nat → List Nat
  | b0 :: b1 :: b2 :: b3 :: rest =>
      (b0 + 256 * b1 + 65536 * b2 + 16777216 * b3) :: bufferToEmbedding rest
  | _ => []

/-- Dot product accumulated by the loop in `cosineSimilarity`. -/
def dotProduct (a b : List ℚ) : ℚ :=
  (List.zipWith (· * ·) a b).sum

/-- Sum of squares (`normA`/`normB` accumulated by the same loop). -/
def sumSq (a : List ℚ) : ℚ :=
  (a.map (fun x => x * x)).sum

/-- Source `cosineSimilarity`: throws on a length mismatch, returns exactly 0
when either accumulated norm is 0, and otherwise divides the dot product by
the product of the square roots of the norms. -/
def cosineSimilarity (sqrt : ℚ → ℚ) (a b : List ℚ) : Except String ℚ :=
  if a.length ≠ b.length then
    .error ("Embedding dimension mismatch: " ++ toString a.length ++ " vs "
      ++ toString b.length)
  else if sumSq a = 0 ∨ sumSq b = 0 then
    .ok 0
  else
    .ok (dotProduct a b / (sqrt (sumSq a) * sqrt (sumSq b)))

/-- Source `generateContextHash`: empty input is the empty-string sentinel;
otherwise the texts are joined with the fixed separator `"\n---\n"`, digested,
and the hex digest is truncated to 16 characters. -/
def generateContextHash (digest : String → String) (responseTexts : List String) :
    String :=
  if responseTexts = [] then ""
  else ((digest (String.intercalate "\n---\n" responseTexts)).take 16)

/-! ## Cache engine (`src/cache.ts`, current revision) -/

/-- JavaScript truthiness of the `string | null` value `contextHash`:
`null` and the empty string are falsy. -/
def strTruthy : Option String → Bool
  | none => false
  | some s => !(s == "")

/-- Source `pruneExpiredEntries`: `DELETE FROM cache_entries WHERE
expires_at < now RETURNING id`, returning the surviving table and the number
of deleted rows. -/
def pruneExpiredEntries (now : Int) (db : List CacheEntry) :
    List CacheEntry × Nat :=
  (db.filter (fun e => !(decide (e.expires_at < now))),
   (db.filter (fun e => decide (e.expires_at < now))).length)

/-- The fetch inside `lookupCache`: `SELECT ... WHERE expires_at > now`. -/
def liveEntries (now : Int) (db : List CacheEntry) : List CacheEntry :=
  db.filter (fun e => decide (now < e.expires_at))

/-- The `candidateEntries` filter inside `lookupCache`: with a truthy context
hash, keep entries with the same hash or a null hash; otherwise keep only
null-hash entries. -/
def candidateFilter (qHash : Option String) (entries : List CacheEntry) :
    List CacheEntry :=
  entries.filter (fun e =>
    if strTruthy qHash then e.context_hash == qHash || e.context_hash == none
    else e.context_hash == none)

/-- Context hash computed by `lookupCache`/`storeCache`:
`contextResponses.length > 0 ? generateContextHash(...) : null`. -/
def contextHashOf (digest : String → String) (contextResponses : List String) :
    Option String :=
  if contextResponses.isEmpty then none
  else some (generateContextHash digest contextResponses)

/-- The candidate set a lookup scores: live entries surviving the context
filter. -/
def lookupCandidates (digest : String → String) (now : Int)
    (db : List CacheEntry) (contextResponses : List String) : List CacheEntry :=
  candidateFilter (contextHashOf digest contextResponses) (liveEntries now db)

/-- One step of the best-match selection in `lookupCache` (the branch ladder
on `isExactContextMatch`/`bestMatchIsExactContext`), applied to an entry that
already passed the threshold test.  `bestMatchIsExactContext` compares with
plain `===` (so `null === null` is true), while `isExactContextMatch` is
guarded by the truthiness of `contextHash`. -/
def updateBest (qHash : Option String) (best : Option CacheMatch)
    (e : CacheEntry) (sim : ℚ) : Option CacheMatch :=
  let isExactContextMatch := strTruthy qHash && (e.context_hash == qHash)
  let bestMatchIsExactContext :=
    match best with
    | none => false
    | some b => b.entry.context_hash == qHash
  match best with
  | none => some ⟨e, sim⟩
  | some b =>
    if isExactContextMatch && !bestMatchIsExactContext then some ⟨e, sim⟩
    else if isExactContextMatch && bestMatchIsExactContext then
      if b.similarity < sim then some ⟨e, sim⟩ else some b
    else if !isExactContextMatch && !bestMatchIsExactContext then
      if b.similarity < sim then some ⟨e, sim⟩ else some b
    else some b

/-- The candidate loop of `lookupCache`: each candidate is scored with
`cosineSimilarity` (whose thrown error propagates out of the loop), and the
scores at or above the threshold feed the selection ladder. -/
def scanBest (sqrt : ℚ → ℚ) (qEmb : List ℚ) (threshold : ℚ)
    (qHash : Option String) :
    List CacheEntry → Option CacheMatch → Except String (Option CacheMatch)
  | [], best => .ok best
  | e :: rest, best =>
    match cosineSimilarity sqrt qEmb e.query_embedding with
    | .error msg => .error msg
    | .ok sim =>
      scanBest sqrt qEmb threshold qHash rest
        (if threshold ≤ sim then updateBest qHash best e sim else best)

/-- The hit-count update on a match: `UPDATE cache_entries SET
hit_count = hit_count + 1 WHERE id = bestMatch.entry.id`. -/
def incrementHit (matchedId : Nat) (db : List CacheEntry) : List CacheEntry :=
  db.map (fun e =>
    if e.id = matchedId then { e with hit_count := e.hit_count + 1 } else e)

/-- Source `lookupCache` (current revision): prune, embed (a failure is
rethrown as "Failed to generate embedding for cache lookup"), hash the
context, fetch live entries, filter candidates, scan for the best match, and
on a match increment its hit count.  The returned pair is the table after the
call together with the result (or the thrown error). -/
def lookupCache (sqrt : ℚ → ℚ) (embedResult : Except String (List ℚ))
    (threshold : ℚ) (now : Int) (db : List CacheEntry)
    (contextResponses : List String) (digest : String → String) :
    List CacheEntry × Except String (Option CacheMatch) :=
  let pruned := (pruneExpiredEntries now db).1
  match embedResult with
  | .error _ => (pruned, .error "Failed to generate embedding for cache lookup")
  | .ok qEmb =>
    let qHash := contextHashOf digest contextResponses
    let candidates := candidateFilter qHash (liveEntries now pruned)
    match scanBest sqrt qEmb threshold qHash candidates none with
    | .error msg => (pruned, .error msg)
    | .ok none => (pruned, .ok none)
    | .ok (some m) => (incrementHit m.entry.id pruned, .ok (some m))

/-- Decidable phrasing of "this candidate scores at or above the threshold":
`cosineSimilarity` succeeds on it with a score `≥ threshold`. -/
def simAtLeast (sqrt : ℚ → ℚ) (qEmb : List ℚ) (threshold : ℚ)
    (e : CacheEntry) : Bool :=
  match cosineSimilarity sqrt qEmb e.query_embedding with
  | .ok s => decide (threshold ≤ s)
  | .error _ => false

/-! ## Retry wrapper (`src/retry.ts`) -/

/-- ASCII lowering of a string, the effect of `message.toLowerCase()` on the
ASCII error messages the classifier inspects. -/
def lowerStr (s : String) : String :=
  String.mk (s.data.map Char.toLower)

/-- JavaScript `message.includes(pat)`: substring containment. -/
def strIncludes (s pat : String) : Bool :=
  let rec go : List Char → Bool
    | [] => pat.data.isEmpty
    | c :: rest => pat.data.isPrefixOf (c :: rest) || go rest
  go s.data

/-- Source `isRetryableError`, on the message of an `Error` value: network
errors, rate-limit errors (429) and server errors (5xx) are retryable,
everything else is not. -/
def isRetryableError (msg : String) : Bool :=
  let m := lowerStr msg
  (strIncludes m "network" || strIncludes m "econnrefused" ||
   strIncludes m "enotfound" || strIncludes m "etimedout" ||
   strIncludes m "econnreset" || strIncludes m "socket hang up" ||
   strIncludes m "fetch failed") ||
  (strIncludes m "rate limit" || strIncludes m "429") ||
  (strIncludes m "500" || strIncludes m "502" || strIncludes m "503" ||
   strIncludes m "504")

/-- The attempt loop of `withRetry`, indexed by the retries still allowed
(`remaining = maxRetries - attempt`, so the source's rethrow condition
`attempt === maxRetries || !isRetryable(error)` becomes `remaining = 0` or a
non-retryable error): call the function; on an error, rethrow when no retry
is allowed, otherwise sleep (timing only, not modelled) and loop.  The second
component counts how many times the function was invoked.  The delay/jitter
arithmetic only feeds `sleep` and the `onRetry` callback and is irrelevant to
the returned value and call count. -/
def withRetryAux (fn : Nat → Except String α) (isRetryable : String → Bool) :
    Nat → Nat → Except String α × Nat
  | 0, attempt =>
    match fn attempt with
    | .ok v => (.ok v, attempt + 1)
    | .error e => (.error e, attempt + 1)
  | remaining + 1, attempt =>
    match fn attempt with
    | .ok v => (.ok v, attempt + 1)
    | .error e =>
      if isRetryable e = false then (.error e, attempt + 1)
      else withRetryAux fn isRetryable remaining (attempt + 1)

/-- Source `withRetry` with the default `isRetryable` option, namely
`isRetryableError`.  The call sequence is modelled by indexing `fn` with the
attempt number; the result is paired with the number of invocations. -/
def withRetry (fn : Nat → Except String α) (maxRetries : Nat) :
    Except String α × Nat :=
  withRetryAux fn isRetryableError maxRetries 0

/-! ## Helper lemmas -/

/-- When the two vectors have equal length, `cosineSimilarity` does not
throw. -/
theorem cosineSimilarity_isOk_of_length (sqrt : ℚ → ℚ) {a b : List ℚ}
    (h : a.length = b.length) : ∃ s, cosineSimilarity sqrt a b = .ok s := by
  unfold cosineSimilarity
  rw [if_neg (by simp [h])]
  split
  · exact ⟨0, rfl⟩
  · exact ⟨_, rfl⟩

/-- On a length mismatch, `cosineSimilarity` throws the dimension-mismatch
error. -/
theorem cosineSimilarity_error_of_mismatch (sqrt : ℚ → ℚ) {a b : List ℚ}
    (h : a.length ≠ b.length) :
    cosineSimilarity sqrt a b
      = .error ("Embedding dimension mismatch: " ++ toString a.length
          ++ " vs " ++ toString b.length) := by
  unfold cosineSimilarity
  rw [if_pos h]

/-- A selection step either keeps the previous best match or installs the
current entry. -/
theorem updateBest_cases (qHash : Option String) (b : Option CacheMatch)
    (e : CacheEntry) (sim : ℚ) :
    updateBest qHash b e sim = b ∨ updateBest qHash b e sim = some ⟨e, sim⟩ := by
  unfold updateBest
  cases b with
  | none => exact Or.inr rfl
  | some b0 =>
    dsimp only
    split
    · exact Or.inr rfl
    · split
      · split
        · exact Or.inr rfl
        · exact Or.inl rfl
      · split
        · split
          · exact Or.inr rfl
          · exact Or.inl rfl
        · exact Or.inl rfl

/-- Any match produced by the candidate loop is either the initial
accumulator or one of the scanned entries. -/
theorem scanBest_mem (sqrt : ℚ → ℚ) (qEmb : List ℚ) (threshold : ℚ)
    (qHash : Option String) :
    ∀ (l : List CacheEntry) (b : Option CacheMatch) (m : CacheMatch),
      scanBest sqrt qEmb threshold qHash l b = .ok (some m) →
      b = some m ∨ m.entry ∈ l := by
  intro l
  induction l with
  | nil =>
    intro b m h
    simp only [scanBest] at h
    exact Or.inl (by injection h)
  | cons e rest ih =>
    intro b m h
    simp only [scanBest] at h
    rcases hcos : cosineSimilarity sqrt qEmb e.query_embedding with msg | sim
    · rw [hcos] at h; exact absurd h (by simp)
    · rw [hcos] at h
      rcases ih _ m h with hb | hmem
      · by_cases hth : threshold ≤ sim
        · rw [if_pos hth] at hb
          rcases updateBest_cases qHash b e sim with hkeep | hnew
          · exact Or.inl (hkeep ▸ hb)
          · rw [hnew] at hb
            have : m.entry = e := by
              have := (Option.some.injEq _ _).mp hb
              rw [← this]
            exact Or.inr (this ▸ List.mem_cons_self _ _)
        · rw [if_neg hth] at hb
          exact Or.inl hb
      · exact Or.inr (List.mem_cons_of_mem _ hmem)

/-- If some scanned candidate's vector length disagrees with the query
embedding's, the loop throws. -/
theorem scanBest_error_of_mismatch (sqrt : ℚ → ℚ) (qEmb : List ℚ)
    (threshold : ℚ) (qHash : Option String) :
    ∀ (l : List CacheEntry) (b : Option CacheMatch),
      (∃ e ∈ l, e.query_embedding.length ≠ qEmb.length) →
      ∃ msg, scanBest sqrt qEmb threshold qHash l b = .error msg := by
  intro l
  induction l with
  | nil => intro b h; simp at h
  | cons e rest ih =>
    intro b h
    by_cases hlen : qEmb.length = e.query_embedding.length
    · obtain ⟨s, hs⟩ := cosineSimilarity_isOk_of_length sqrt hlen
      have hrest : ∃ x ∈ rest, x.query_embedding.length ≠ qEmb.length := by
        obtain ⟨x, hx, hxl⟩ := h
        rcases List.mem_cons.mp hx with rfl | hx'
        · exact absurd hlen.symm hxl
        · exact ⟨x, hx', hxl⟩
      obtain ⟨msg, hmsg⟩ := ih _ hrest
      exact ⟨msg, by simp only [scanBest, hs]; exact hmsg⟩
    · refine ⟨"Embedding dimension mismatch: " ++ toString qEmb.length
        ++ " vs " ++ toString e.query_embedding.length, ?_⟩
      have herr := cosineSimilarity_error_of_mismatch sqrt hlen
      simp only [scanBest, herr]

/-! ## Claim theorems -/

/-- C7.  Codec round trip: for every single-precision vector (each element
identified with its 32-bit pattern), `bufferToEmbedding (embeddingToBuffer v)`
reproduces `v` exactly, element by element — including the empty vector. -/
theorem embedding_codec_round_trip (v : List Nat)
    (h : ∀ w ∈ v, w < 4294967296) :
    bufferToEmbedding (embeddingToBuffer v) = v := by
  induction v with
  | nil => rfl
  | cons w rest ih =>
    have hw : w < 4294967296 := h w (List.mem_cons_self _ _)
    have hrest : bufferToEmbedding (embeddingToBuffer rest) = rest :=
      ih (fun x hx => h x (List.mem_cons_of_mem _ hx))
    have hstep : embeddingToBuffer (w :: rest)
        = w % 256 :: (w / 256 % 256) :: (w / 65536 % 256)
          :: (w / 16777216 % 256) :: embeddingToBuffer rest := by
      simp [embeddingToBuffer, word32ToBytesLE]
    rw [hstep]
    simp only [bufferToEmbedding]
    rw [hrest]
    congr 1
    omega

/-- Witness for C7 at a concrete vector (the patterns of 0.0, a denormal,
NaN-payload 0xFFFFFFFF and 3.14) and at the empty vector. -/
theorem embedding_codec_round_trip_witness :
    bufferToEmbedding (embeddingToBuffer [0, 1, 4294967295, 1078530011])
      = [0, 1, 4294967295, 1078530011]
    ∧ bufferToEmbedding (embeddingToBuffer []) = [] :=
  ⟨embedding_codec_round_trip [0, 1, 4294967295, 1078530011] (by decide),
   embedding_codec_round_trip [] (by decide)⟩

/-- C9.  Zero-norm policy: on equal-length vectors, when either argument has
zero norm, `cosineSimilarity` returns exactly 0 — the guard fires before any
division, so no error and no undefined value is produced, whatever the
square-root routine is. -/
theorem cosineSimilarity_zero_norm (sqrt : ℚ → ℚ) (a b : List ℚ)
    (hlen : a.length = b.length) (h : sumSq a = 0 ∨ sumSq b = 0) :
    cosineSimilarity sqrt a b = .ok 0 := by
  unfold cosineSimilarity
  rw [if_neg (by simp [hlen]), if_pos h]

/-- Witness for C9: the zero vector against `[3, 4]`. -/
theorem cosineSimilarity_zero_norm_witness :
    ([0, 0] : List ℚ).length = ([3, 4] : List ℚ).length
    ∧ sumSq [0, 0] = 0
    ∧ cosineSimilarity id [0, 0] [3, 4] = .ok 0 :=
  ⟨by decide, by simp [sumSq],
   cosineSimilarity_zero_norm id [0, 0] [3, 4] (by decide)
     (Or.inl (by simp [sumSq]))⟩

/-- C10.  Separator injection: the distinct response lists `["a", "b"]` and
`["a\n---\nb"]` are joined to the same string before digesting, so their
context fingerprints coincide for every digest function. -/
theorem generateContextHash_separator_collision (digest : String → String) :
    generateContextHash digest ["a", "b"]
      = generateContextHash digest ["a\n---\nb"]
    ∧ (["a", "b"] : List String) ≠ ["a\n---\nb"] := by
  constructor
  · have hjoin : String.intercalate "\n---\n" ["a", "b"]
        = String.intercalate "\n---\n" ["a\n---\nb"] := by decide
    unfold generateContextHash
    rw [if_neg (by decide), if_neg (by decide), hjoin]
  · decide

/-- C3.  Embedding-failure propagation: when embedding generation fails,
`lookupCache` rethrows the distinguishable message "Failed to generate
embedding for cache lookup" (after the prune side effect); in particular it
does not return the "no match" result. -/
theorem lookupCache_embed_error_propagates (sqrt : ℚ → ℚ) (msg : String)
    (threshold : ℚ) (now : Int) (db : List CacheEntry) (ctx : List String)
    (digest : String → String) :
    lookupCache sqrt (.error msg) threshold now db ctx digest
      = ((pruneExpiredEntries now db).1,
         .error "Failed to generate embedding for cache lookup") :=
  rfl

/-- C4 counterexample: an entry whose `expiresAt` equals `now` exactly is NOT
removed by `pruneExpiredEntries` (the delete uses a strict `<`), and the
returned count is 0, contradicting the claimed `expiresAt <= now` boundary. -/
theorem pruneExpiredEntries_boundary_cex :
    pruneExpiredEntries 0 [⟨1, "q", [1], none, "r", none, -1, 0, 0⟩]
      = ([⟨1, "q", [1], none, "r", none, -1, 0, 0⟩], 0)
    ∧ ((⟨1, "q", [1], none, "r", none, -1, 0, 0⟩ : CacheEntry).expires_at
        ≤ (0 : Int)) := by
  decide

/-- C4 amended: `pruneExpiredEntries` removes exactly the entries with
`expiresAt` strictly before `now` and returns their count; an entry with
`expiresAt = now` is retained by the prune, yet no entry with
`expiresAt ≤ now` ever appears among lookup candidates (the candidate fetch
requires `expiresAt > now`). -/
theorem pruneExpiredEntries_strict_boundary (now : Int) (db : List CacheEntry)
    (digest : String → String) (ctx : List String) :
    (∀ e, e ∈ (pruneExpiredEntries now db).1 ↔ e ∈ db ∧ ¬ e.expires_at < now)
    ∧ (pruneExpiredEntries now db).2
        = db.countP (fun e => decide (e.expires_at < now))
    ∧ (∀ e ∈ db, e.expires_at = now → e ∈ (pruneExpiredEntries now db).1)
    ∧ (∀ e ∈ lookupCandidates digest now db ctx, now < e.expires_at) := by
  refine ⟨?_, ?_, ?_, ?_⟩
  · intro e
    simp [pruneExpiredEntries, List.mem_filter]
  · simp [pruneExpiredEntries, List.countP_eq_length_filter]
  · intro e he hnow
    simp [pruneExpiredEntries, List.mem_filter, he, hnow]
  · intro e he
    unfold lookupCandidates candidateFilter liveEntries at he
    rcases List.mem_filter.mp he with ⟨hlive, _⟩
    exact of_decide_eq_true (List.mem_filter.mp hlive).2

/-- C2 counterexample: with a valid candidate at the threshold present
alongside one stored entry of mismatched dimension, `lookupCache` throws the
dimension-mismatch error instead of skipping the corrupt entry and returning
the valid match. -/
theorem lookupCache_dimension_mismatch_cex :
    (lookupCache id (.ok [0]) 0 0
        [⟨1, "bad", [0, 0], none, "r1", none, 0, 1, 0⟩,
         ⟨2, "good", [0], none, "r2", none, 0, 1, 0⟩] [] (fun _ => "")).2
      = .error "Embedding dimension mismatch: 1 vs 2"
    ∧ simAtLeast id [0] 0 ⟨2, "good", [0], none, "r2", none, 0, 1, 0⟩
        = true := by
  constructor
  · rfl
  · simp [simAtLeast, cosineSimilarity, sumSq]

/-- C2 amended: a stored candidate whose embedding length differs from the
query embedding's is not skipped — the dimension-mismatch error thrown by
`cosineSimilarity` propagates and aborts the entire lookup (only a raw stored
value of unexpected runtime type is skipped by the loop's type guard), so no
match is returned. -/
theorem lookupCache_dimension_mismatch_aborts (sqrt : ℚ → ℚ) (qEmb : List ℚ)
    (threshold : ℚ) (now : Int) (db : List CacheEntry) (ctx : List String)
    (digest : String → String)
    (h : ∃ e ∈ lookupCandidates digest now (pruneExpiredEntries now db).1 ctx,
        e.query_embedding.length ≠ qEmb.length) :
    ∃ msg, (lookupCache sqrt (.ok qEmb) threshold now db ctx digest).2
      = .error msg := by
  obtain ⟨msg, hmsg⟩ := scanBest_error_of_mismatch sqrt qEmb threshold
    (contextHashOf digest ctx)
    (lookupCandidates digest now (pruneExpiredEntries now db).1 ctx) none h
  refine ⟨msg, ?_⟩
  unfold lookupCandidates at hmsg
  simp only [lookupCache]
  rw [hmsg]

/-- Witness for the amended C2 at the counterexample scenario. -/
theorem lookupCache_dimension_mismatch_aborts_witness :
    ∃ msg, (lookupCache id (.ok [0]) 0 0
        [⟨1, "bad", [0, 0], none, "r1", none, 0, 1, 0⟩,
         ⟨2, "good", [0], none, "r2", none, 0, 1, 0⟩] [] (fun _ => "")).2
      = .error msg :=
  lookupCache_dimension_mismatch_aborts id [0] 0 0
    [⟨1, "bad", [0, 0], none, "r1", none, 0, 1, 0⟩,
     ⟨2, "good", [0], none, "r2", none, 0, 1, 0⟩] [] (fun _ => "")
    (by decide)

/-- C5.  Candidate filtering: for a context-bearing lookup (non-empty context
hash) the candidates are exactly the live entries whose hash equals the
query's or is null; for an empty context, exactly the live null-hash entries;
and a returned match can never carry a non-null hash different from the
query's. -/
theorem lookupCache_candidate_filtering (digest : String → String) (now : Int)
    (db : List CacheEntry) (ctx : List String)
    (hne : ctx ≠ [] → generateContextHash digest ctx ≠ "") :
    (ctx ≠ [] → ∀ e, e ∈ lookupCandidates digest now db ctx ↔
        (e ∈ liveEntries now db
          ∧ (e.context_hash = some (generateContextHash digest ctx)
              ∨ e.context_hash = none)))
    ∧ (ctx = [] → ∀ e, e ∈ lookupCandidates digest now db ctx ↔
        (e ∈ liveEntries now db ∧ e.context_hash = none))
    ∧ (∀ (sqrt : ℚ → ℚ) (qEmb : List ℚ) (threshold : ℚ)
        (db' : List CacheEntry) (m : CacheMatch) (h' : String),
        ctx ≠ [] →
        lookupCache sqrt (.ok qEmb) threshold now db ctx digest
          = (db', .ok (some m)) →
        m.entry.context_hash = some h' →
        h' = generateContextHash digest ctx) := by
  refine ⟨?_, ?_, ?_⟩
  · intro hctx e
    have hq : contextHashOf digest ctx
        = some (generateContextHash digest ctx) := by
      simp [contextHashOf, hctx]
    have ht : strTruthy (some (generateContextHash digest ctx)) = true := by
      simp [strTruthy, hne hctx]
    unfold lookupCandidates candidateFilter
    rw [hq]
    simp [List.mem_filter, ht]
  · intro hctx e
    have hq : contextHashOf digest ctx = none := by
      simp [contextHashOf, hctx]
    unfold lookupCandidates candidateFilter
    rw [hq]
    simp [List.mem_filter, strTruthy]
  · intro sqrt qEmb threshold db' m h' hctx hlook hhash
    have hq : contextHashOf digest ctx
        = some (generateContextHash digest ctx) := by
      simp [contextHashOf, hctx]
    have ht : strTruthy (some (generateContextHash digest ctx)) = true := by
      simp [strTruthy, hne hctx]
    simp only [lookupCache, hq] at hlook
    rcases hscan : scanBest sqrt qEmb threshold
        (some (generateContextHash digest ctx))
        (candidateFilter (some (generateContextHash digest ctx))
          (liveEntries now (pruneExpiredEntries now db).1)) none with msg | best
    · rw [hscan] at hlook
      simp at hlook
    · rw [hscan] at hlook
      cases best with
      | none => simp at hlook
      | some m0 =>
        simp only [Prod.mk.injEq] at hlook
        have hm : m0 = m := by
          have h2 := hlook.2
          simpa using h2
        subst hm
        rcases scanBest_mem sqrt qEmb threshold _ _ _ _ hscan with hbad | hmem
        · exact absurd hbad (by simp)
        · rcases List.mem_filter.mp hmem with ⟨_, hpred⟩
          rw [ht] at hpred
          simp only [if_true] at hpred
          rcases Bool.or_eq_true_iff.mp hpred with hsame | hnull
          · have := eq_of_beq hsame
            rw [hhash] at this
            exact (Option.some.injEq _ _).mp this
          · have := eq_of_beq hnull
            rw [hhash] at this
            exact absurd this (by simp)

/-- Witness for C5: with context hash "cafe", a null-context live entry is a
candidate of a context-bearing lookup. -/
theorem lookupCache_candidate_filtering_witness :
    (⟨2, "q2", [0], none, "r2", none, 0, 1, 0⟩ : CacheEntry)
      ∈ lookupCandidates (fun _ => "cafe") 0
          [⟨1, "q1", [0], some "cafe", "r1", none, 0, 1, 0⟩,
           ⟨2, "q2", [0], none, "r2", none, 0, 1, 0⟩] ["x"] :=
  ((lookupCache_candidate_filtering (fun _ => "cafe") 0
      [⟨1, "q1", [0], some "cafe", "r1", none, 0, 1, 0⟩,
       ⟨2, "q2", [0], none, "r2", none, 0, 1, 0⟩] ["x"] (by decide)).1
    (by decide) _).mpr (by decide)

/-- Unfolding of the retry loop with retries still allowed. -/
theorem withRetryAux_succ (fn : Nat → Except String α) (isR : String → Bool)
    (remaining attempt : Nat) :
    withRetryAux fn isR (remaining + 1) attempt
      = match fn attempt with
        | .ok v => (.ok v, attempt + 1)
        | .error e =>
          if isR e = false then (.error e, attempt + 1)
          else withRetryAux fn isR remaining (attempt + 1) := rfl

/-- A successful call ends the loop at once. -/
theorem withRetryAux_ok (fn : Nat → Except String α) (isR : String → Bool)
    (remaining attempt : Nat) (v : α) (he : fn attempt = .ok v) :
    withRetryAux fn isR remaining attempt = (.ok v, attempt + 1) := by
  cases remaining with
  | zero => simp only [withRetryAux, he]
  | succ n => rw [withRetryAux_succ, he]

/-- A retryable failure with retries left moves to the next attempt. -/
theorem withRetryAux_retry_step (fn : Nat → Except String α)
    (isR : String → Bool) (remaining attempt : Nat) (e : String)
    (he : fn attempt = .error e) (hr : isR e = true) :
    withRetryAux fn isR (remaining + 1) attempt
      = withRetryAux fn isR remaining (attempt + 1) := by
  rw [withRetryAux_succ, he]
  simp [hr]

/-- A non-retryable failure is rethrown at once. -/
theorem withRetryAux_fail_step (fn : Nat → Except String α)
    (isR : String → Bool) (remaining attempt : Nat) (e : String)
    (he : fn attempt = .error e) (hr : isR e = false) :
    withRetryAux fn isR remaining attempt = (.error e, attempt + 1) := by
  cases remaining with
  | zero => simp only [withRetryAux, he]
  | succ n => rw [withRetryAux_succ, he]; simp [hr]

/-- On the last allowed attempt any failure is rethrown. -/
theorem withRetryAux_last (fn : Nat → Except String α) (isR : String → Bool)
    (attempt : Nat) (e : String) (he : fn attempt = .error e) :
    withRetryAux fn isR 0 attempt = (.error e, attempt + 1) := by
  simp only [withRetryAux, he]

/-- When every attempt in the window fails retryably, the loop runs the
window down and rethrows the final error. -/
theorem withRetryAux_all_fail (fn : Nat → Except String α)
    (isR : String → Bool) (err : Nat → String) :
    ∀ remaining attempt,
      (∀ i, attempt ≤ i → i ≤ attempt + remaining →
        fn i = .error (err i) ∧ isR (err i) = true) →
      withRetryAux fn isR remaining attempt
        = (.error (err (attempt + remaining)), attempt + remaining + 1) := by
  intro remaining
  induction remaining with
  | zero =>
    intro attempt h
    obtain ⟨he, _⟩ := h attempt le_rfl (by omega)
    simpa using withRetryAux_last fn isR attempt _ he
  | succ n ih =>
    intro attempt h
    obtain ⟨he, hr⟩ := h attempt le_rfl (by omega)
    rw [withRetryAux_retry_step fn isR n attempt _ he hr,
      ih (attempt + 1) (fun i h1 h2 => h i (by omega) (by omega))]
    have h3 : attempt + 1 + n = attempt + (n + 1) := by omega
    rw [h3]

/-- C8.  Retry protocol of `withRetry` under the default classifier
`isRetryableError`: (1) two retryable failures followed by a success under
`maxRetries = 3` return the success value after exactly 3 invocations;
(2) a non-retryable first failure is rethrown unchanged after exactly one
invocation, for any retry budget; (3) when every attempt fails retryably the
budget is exhausted and the last error is rethrown unchanged after
`maxRetries + 1` invocations. -/
theorem withRetry_protocol :
    (∀ (α : Type) (fn : Nat → Except String α) (e0 e1 : String) (v : α),
        fn 0 = .error e0 → fn 1 = .error e1 → fn 2 = .ok v →
        isRetryableError e0 = true → isRetryableError e1 = true →
        withRetry fn 3 = (.ok v, 3))
    ∧ (∀ (α : Type) (fn : Nat → Except String α) (e : String)
        (maxRetries : Nat),
        fn 0 = .error e → isRetryableError e = false →
        withRetry fn maxRetries = (.error e, 1))
    ∧ (∀ (α : Type) (fn : Nat → Except String α) (err : Nat → String)
        (maxRetries : Nat),
        (∀ i, i ≤ maxRetries →
          fn i = .error (err i) ∧ isRetryableError (err i) = true) →
        withRetry fn maxRetries
          = (.error (err maxRetries), maxRetries + 1)) := by
  refine ⟨?_, ?_, ?_⟩
  · intro α fn e0 e1 v h0 h1 h2 hr0 hr1
    unfold withRetry
    rw [show (3 : Nat) = 2 + 1 from rfl,
      withRetryAux_retry_step fn isRetryableError 2 0 e0 h0 hr0,
      show (2 : Nat) = 1 + 1 from rfl,
      withRetryAux_retry_step fn isRetryableError 1 1 e1 h1 hr1,
      withRetryAux_ok fn isRetryableError 1 2 v h2]
  · intro α fn e maxRetries h0 hr
    unfold withRetry
    exact withRetryAux_fail_step fn isRetryableError maxRetries 0 e h0 hr
  · intro α fn err maxRetries h
    unfold withRetry
    have := withRetryAux_all_fail fn isRetryableError err maxRetries 0
      (fun i _ h2 => h i (by omega))
    simpa using this

/-- Witness for C8: a function failing twice with "fetch failed" then
succeeding; a constant "400 Bad Request" failure; a constant retryable
"503 Service Unavailable" failure exhausting `maxRetries = 2`. -/
theorem withRetry_protocol_witness :
    withRetry
        (fun n => if n < 2 then (.error "fetch failed" : Except String Nat)
          else .ok 7) 3
      = (.ok 7, 3)
    ∧ withRetry (fun _ => (.error "400 Bad Request" : Except String Nat)) 5
      = (.error "400 Bad Request", 1)
    ∧ withRetry
        (fun _ => (.error "503 Service Unavailable" : Except String Nat)) 2
      = (.error "503 Service Unavailable", 3) :=
  ⟨withRetry_protocol.1 Nat _ "fetch failed" "fetch failed" 7 rfl rfl rfl
      (by decide) (by decide),
   withRetry_protocol.2.1 Nat _ "400 Bad Request" 5 rfl (by decide),
   withRetry_protocol.2.2 Nat _ (fun _ => "503 Service Unavailable") 2
      (fun i _ => ⟨rfl,
        (by decide : isRetryableError "503 Service Unavailable" = true)⟩)⟩

/-- When the current best match is an exact context match, a selection step
never replaces it by a non-exact entry. -/
theorem updateBest_exact_best (h : String) (b0 : CacheMatch)
    (e : CacheEntry) (sim : ℚ) (hb0 : b0.entry.context_hash = some h) :
    ∃ m1, updateBest (some h) (some b0) e sim = some m1
      ∧ m1.entry.context_hash = some h := by
  unfold updateBest
  dsimp only
  have hbe : (b0.entry.context_hash == some h) = true := by simp [hb0]
  cases hex : strTruthy (some h) && (e.context_hash == some h) with
  | false =>
    refine ⟨b0, ?_, hb0⟩
    simp [hbe]
  | true =>
    have hehash : e.context_hash = some h := by
      have := (Bool.and_eq_true _ _).mp hex
      exact eq_of_beq this.2
    by_cases hlt : b0.similarity < sim
    · refine ⟨⟨e, sim⟩, ?_, hehash⟩
      simp [hbe, hlt]
    · refine ⟨b0, ?_, hb0⟩
      simp [hbe, hlt]

/-- Once the accumulator of the candidate loop holds an exact context match,
the loop's final result is still an exact context match. -/
theorem scanBest_preserves_exact (sqrt : ℚ → ℚ) (qEmb : List ℚ)
    (threshold : ℚ) (h : String) :
    ∀ (l : List CacheEntry) (m0 : CacheMatch),
      (∀ e ∈ l, e.query_embedding.length = qEmb.length) →
      m0.entry.context_hash = some h →
      ∃ m, scanBest sqrt qEmb threshold (some h) l (some m0) = .ok (some m)
        ∧ m.entry.context_hash = some h := by
  intro l
  induction l with
  | nil => intro m0 _ hm0; exact ⟨m0, rfl, hm0⟩
  | cons e rest ih =>
    intro m0 hlen hm0
    obtain ⟨s, hs⟩ := cosineSimilarity_isOk_of_length sqrt
      (hlen e (List.mem_cons_self _ _)).symm
    have hb' : ∃ m1,
        (if threshold ≤ s then updateBest (some h) (some m0) e s
          else some m0) = some m1
        ∧ m1.entry.context_hash = some h := by
      by_cases hth : threshold ≤ s
      · rw [if_pos hth]
        exact updateBest_exact_best h m0 e s hm0
      · exact ⟨m0, by rw [if_neg hth], hm0⟩
    obtain ⟨m1, hb1, hm1⟩ := hb'
    obtain ⟨m, hm, hmx⟩ := ih m1
      (fun x hx => hlen x (List.mem_cons_of_mem _ hx)) hm1
    refine ⟨m, ?_, hmx⟩
    simp only [scanBest, hs]
    rw [hb1]
    exact hm

/-- If some candidate in the scanned list is an exact context match scoring
at or above the threshold (and no candidate aborts the scan), the loop
returns an exact context match. -/
theorem scanBest_exact_found (sqrt : ℚ → ℚ) (qEmb : List ℚ) (threshold : ℚ)
    (h : String) (hh : h ≠ "") :
    ∀ (l : List CacheEntry) (b : Option CacheMatch),
      (∀ e ∈ l, e.query_embedding.length = qEmb.length) →
      (∃ e ∈ l, e.context_hash = some h
        ∧ simAtLeast sqrt qEmb threshold e = true) →
      ∃ m, scanBest sqrt qEmb threshold (some h) l b = .ok (some m)
        ∧ m.entry.context_hash = some h := by
  intro l
  induction l with
  | nil => intro b _ hex; simp at hex
  | cons e rest ih =>
    intro b hlen hex
    obtain ⟨s, hs⟩ := cosineSimilarity_isOk_of_length sqrt
      (hlen e (List.mem_cons_self _ _)).symm
    by_cases he : e.context_hash = some h
        ∧ simAtLeast sqrt qEmb threshold e = true
    · obtain ⟨hehash, hesim⟩ := he
      have hth : threshold ≤ s := by
        unfold simAtLeast at hesim
        rw [hs] at hesim
        exact of_decide_eq_true hesim
      have hb' : ∃ m1,
          (if threshold ≤ s then updateBest (some h) b e s else b) = some m1
          ∧ m1.entry.context_hash = some h := by
        rw [if_pos hth]
        cases b with
        | none => exact ⟨⟨e, s⟩, rfl, hehash⟩
        | some b0 =>
          by_cases hb0 : b0.entry.context_hash = some h
          · exact updateBest_exact_best h b0 e s hb0
          · refine ⟨⟨e, s⟩, ?_, hehash⟩
            unfold updateBest
            dsimp only
            have h1 : (strTruthy (some h) && (e.context_hash == some h))
                = true := by
              simp [strTruthy, hh, hehash]
            have h2 : (b0.entry.context_hash == some h) = false := by
              simp [hb0]
            rw [h1, h2]
            simp
      obtain ⟨m1, hb1, hm1⟩ := hb'
      obtain ⟨m, hm, hmx⟩ := scanBest_preserves_exact sqrt qEmb threshold h
        rest m1 (fun x hx => hlen x (List.mem_cons_of_mem _ hx)) hm1
      refine ⟨m, ?_, hmx⟩
      simp only [scanBest, hs]
      rw [hb1]
      exact hm
    · have hrest : ∃ x ∈ rest, x.context_hash = some h
          ∧ simAtLeast sqrt qEmb threshold x = true := by
        obtain ⟨x, hx, hxp⟩ := hex
        rcases List.mem_cons.mp hx with rfl | hx'
        · exact absurd hxp he
        · exact ⟨x, hx', hxp⟩
      obtain ⟨m, hm, hmx⟩ := ih
        (if threshold ≤ s then updateBest (some h) b e s else b)
        (fun x hx => hlen x (List.mem_cons_of_mem _ hx)) hrest
      refine ⟨m, ?_, hmx⟩
      simp only [scanBest, hs]
      exact hm

/-- C1.  Exact-context preference: for a lookup carrying a non-empty context
hash, whenever some candidate at or above the threshold has exactly the
query's context hash (and the scan completes, i.e. every candidate's vector
has the query embedding's length), the returned match is an exact-context
entry — whatever the similarity scores of the non-exact candidates are. -/
theorem lookupCache_exact_context_preference (sqrt : ℚ → ℚ) (qEmb : List ℚ)
    (threshold : ℚ) (now : Int) (db : List CacheEntry) (ctx : List String)
    (digest : String → String) (hctx : ctx ≠ [])
    (hh : generateContextHash digest ctx ≠ "")
    (hlen : ∀ e ∈ lookupCandidates digest now (pruneExpiredEntries now db).1 ctx,
        e.query_embedding.length = qEmb.length)
    (hex : ∃ e ∈ lookupCandidates digest now (pruneExpiredEntries now db).1 ctx,
        e.context_hash = some (generateContextHash digest ctx)
        ∧ simAtLeast sqrt qEmb threshold e = true) :
    ∃ m, (lookupCache sqrt (.ok qEmb) threshold now db ctx digest).2
        = .ok (some m)
      ∧ m.entry.context_hash = some (generateContextHash digest ctx) := by
  have hq : contextHashOf digest ctx
      = some (generateContextHash digest ctx) := by
    simp [contextHashOf, hctx]
  obtain ⟨m, hm, hmx⟩ := scanBest_exact_found sqrt qEmb threshold _ hh
    (lookupCandidates digest now (pruneExpiredEntries now db).1 ctx) none
    hlen hex
  refine ⟨m, ?_, hmx⟩
  unfold lookupCandidates at hm
  rw [hq] at hm
  simp only [lookupCache, hq]
  rw [hm]

/-- Witness for C1: a null-context candidate is scanned first, yet the
exact-context entry (hash "cafe") is the returned match. -/
theorem lookupCache_exact_context_preference_witness :
    ∃ m, (lookupCache id (.ok [0]) 0 0
        [⟨2, "q2", [0], none, "r2", none, 0, 1, 0⟩,
         ⟨1, "q1", [0], some "cafe", "r1", none, 0, 1, 0⟩] ["x"]
        (fun _ => "cafe")).2 = .ok (some m)
      ∧ m.entry.context_hash
          = some (generateContextHash (fun _ => "cafe") ["x"]) :=
  lookupCache_exact_context_preference id [0] 0 0
    [⟨2, "q2", [0], none, "r2", none, 0, 1, 0⟩,
     ⟨1, "q1", [0], some "cafe", "r1", none, 0, 1, 0⟩] ["x"] (fun _ => "cafe")
    (by decide) (by decide) (by decide)
    ⟨⟨1, "q1", [0], some "cafe", "r1", none, 0, 1, 0⟩, by decide, by decide,
      by simp [simAtLeast, cosineSimilarity, sumSq]⟩

/-- C6.  Hit-count frame: when a lookup succeeds with match `m`, the
resulting table is the pruned table with exactly the hit counts of the
entries carrying the matched id (the matched entry is among the survivors,
and ids are unique in SQLite) incremented by 1; every other field of every
entry — response, created_at, query, embedding, context hash, expiry — and
the hit count of every entry with a different id are unchanged. -/
theorem lookupCache_hit_count_frame (sqrt : ℚ → ℚ)
    (embedResult : Except String (List ℚ)) (threshold : ℚ) (now : Int)
    (db : List CacheEntry) (ctx : List String) (digest : String → String)
    (db' : List CacheEntry) (m : CacheMatch)
    (h : lookupCache sqrt embedResult threshold now db ctx digest
      = (db', .ok (some m))) :
    m.entry ∈ (pruneExpiredEntries now db).1
    ∧ db'.length = (pruneExpiredEntries now db).1.length
    ∧ ∀ i (hi : i < db'.length)
        (hi' : i < (pruneExpiredEntries now db).1.length),
        (db'.get ⟨i, hi⟩).id
            = ((pruneExpiredEntries now db).1.get ⟨i, hi'⟩).id
        ∧ (db'.get ⟨i, hi⟩).query
            = ((pruneExpiredEntries now db).1.get ⟨i, hi'⟩).query
        ∧ (db'.get ⟨i, hi⟩).query_embedding
            = ((pruneExpiredEntries now db).1.get ⟨i, hi'⟩).query_embedding
        ∧ (db'.get ⟨i, hi⟩).context_hash
            = ((pruneExpiredEntries now db).1.get ⟨i, hi'⟩).context_hash
        ∧ (db'.get ⟨i, hi⟩).response
            = ((pruneExpiredEntries now db).1.get ⟨i, hi'⟩).response
        ∧ (db'.get ⟨i, hi⟩).response_id
            = ((pruneExpiredEntries now db).1.get ⟨i, hi'⟩).response_id
        ∧ (db'.get ⟨i, hi⟩).created_at
            = ((pruneExpiredEntries now db).1.get ⟨i, hi'⟩).created_at
        ∧ (db'.get ⟨i, hi⟩).expires_at
            = ((pruneExpiredEntries now db).1.get ⟨i, hi'⟩).expires_at
        ∧ (db'.get ⟨i, hi⟩).hit_count
            = (if ((pruneExpiredEntries now db).1.get ⟨i, hi'⟩).id
                  = m.entry.id
               then ((pruneExpiredEntries now db).1.get ⟨i, hi'⟩).hit_count + 1
               else ((pruneExpiredEntries now db).1.get ⟨i, hi'⟩).hit_count) := by
  cases embedResult with
  | error msg => simp [lookupCache] at h
  | ok qEmb =>
    simp only [lookupCache] at h
    rcases hscan : scanBest sqrt qEmb threshold (contextHashOf digest ctx)
        (candidateFilter (contextHashOf digest ctx)
          (liveEntries now (pruneExpiredEntries now db).1)) none
      with msg | best
    · rw [hscan] at h
      simp at h
    · rw [hscan] at h
      cases best with
      | none => simp at h
      | some m0 =>
        simp only [Prod.mk.injEq] at h
        obtain ⟨hdb, hm0⟩ := h
        have hm0' : m0 = m := by simpa using hm0
        subst hm0'
        subst hdb
        refine ⟨?_, ?_, ?_⟩
        · rcases scanBest_mem sqrt qEmb threshold _ _ _ _ hscan
            with hbad | hmem
          · exact absurd hbad (by simp)
          · have h1 := (List.mem_filter.mp hmem).1
            exact (List.mem_filter.mp h1).1
        · simp [incrementHit]
        · intro i hi hi'
          have hget : (incrementHit m0.entry.id
                (pruneExpiredEntries now db).1).get ⟨i, hi⟩
              = (fun e => if e.id = m0.entry.id
                  then { e with hit_count := e.hit_count + 1 } else e)
                ((pruneExpiredEntries now db).1.get ⟨i, hi'⟩) := by
            simp [incrementHit, List.get_eq_getElem, List.getElem_map]
          rw [hget]
          simp only [List.get_eq_getElem]
          by_cases hid : (pruneExpiredEntries now db).1[i].id = m0.entry.id
          · simp [hid]
          · simp [hid]

/-- Witness for C6: a two-entry table where the first entry is matched; its
hit count goes from 0 to 1 and the second entry is untouched. -/
theorem lookupCache_hit_count_frame_witness :
    lookupCache id (.ok [0]) 0 0
        [⟨1, "list files", [0], none, "ls -la", none, 0, 1, 0⟩,
         ⟨2, "other", [0], none, "pwd", none, 0, 1, 4⟩] [] (fun _ => "")
      = ([⟨1, "list files", [0], none, "ls -la", none, 0, 1, 1⟩,
          ⟨2, "other", [0], none, "pwd", none, 0, 1, 4⟩],
         .ok (some ⟨⟨1, "list files", [0], none, "ls -la", none, 0, 1, 0⟩, 0⟩))
    ∧ (⟨1, "list files", [0], none, "ls -la", none, 0, 1, 0⟩ : CacheEntry)
        ∈ (pruneExpiredEntries 0
            [⟨1, "list files", [0], none, "ls -la", none, 0, 1, 0⟩,
             ⟨2, "other", [0], none, "pwd", none, 0, 1, 4⟩]).1 := by
  have h : lookupCache id (.ok [0]) 0 0
      [⟨1, "list files", [0], none, "ls -la", none, 0, 1, 0⟩,
       ⟨2, "other", [0], none, "pwd", none, 0, 1, 4⟩] [] (fun _ => "")
      = ([⟨1, "list files", [0], none, "ls -la", none, 0, 1, 1⟩,
          ⟨2, "other", [0], none, "pwd", none, 0, 1, 4⟩],
         .ok (some ⟨⟨1, "list files", [0], none, "ls -la", none, 0, 1, 0⟩,
           0⟩)) := by
    simp [lookupCache, pruneExpiredEntries, liveEntries, candidateFilter,
      contextHashOf, strTruthy, scanBest, cosineSimilarity, sumSq,
      updateBest, incrementHit]
  exact ⟨h, (lookupCache_hit_count_frame id (.ok [0]) 0 0
    [⟨1, "list files", [0], none, "ls -la", none, 0, 1, 0⟩,
     ⟨2, "other", [0], none, "pwd", none, 0, 1, 4⟩] [] (fun _ => "")
    _ _ h).1⟩

/-- Witness for C3 at a concrete failing embed call. -/
theorem lookupCache_embed_error_propagates_witness :
    lookupCache id (.error "boom") 0 0 [] [] (fun _ => "")
      = ([], .error "Failed to generate embedding for cache lookup") :=
  lookupCache_embed_error_propagates id "boom" 0 0 [] [] (fun _ => "")

/-- Witness for the amended C4: the boundary entry (`expiresAt = now`) is
retained by the prune. -/
theorem pruneExpiredEntries_strict_boundary_witness :
    (⟨1, "q", [1], none, "r", none, -1, 0, 0⟩ : CacheEntry)
      ∈ (pruneExpiredEntries 0
          [⟨1, "q", [1], none, "r", none, -1, 0, 0⟩]).1 :=
  (pruneExpiredEntries_strict_boundary 0
      [⟨1, "q", [1], none, "r", none, -1, 0, 0⟩] (fun _ => "") []).2.2.1
    ⟨1, "q", [1], none, "r", none, -1, 0, 0⟩ (by decide) (by decide)

/-- Witness for C10 at a concrete digest function. -/
theorem generateContextHash_separator_collision_witness :
    generateContextHash (fun _ => "x") ["a", "b"]
      = generateContextHash (fun _ => "x") ["a\n---\nb"] :=
  (generateContextHash_separator_collision (fun _ => "x")).1
